import Mathlib

/-!
Verification of the `lit` version-control system core against its C sources.

Lines of a text file are modelled as byte sequences (`List Char`, one `Char`
per byte, ASCII assumed as the sources do).  The diff engine (src/diff.c),
the materialisation helpers (src/ops.c), the rebase engine (src/rebase.c),
the repository operations (src/repo.c), the commit writer (src/commit.c),
the hash module (src/hash.c) and the relevant CLI handlers (src/cli.c) are
embedded as executable Lean functions below, file by file.
-/

/-- A line of text, as a sequence of bytes (`char` values). -/
abbrev Line := List Char

/-- `MAX_LINE_LEN` from diff.h: the line buffer used by `diff_append` and
`rindat` holds 256 bytes including the terminating NUL. -/
def MAX_LINE_LEN : Nat := 256

/-- The effect of `vsnprintf(buffer, MAX_LINE_LEN, ...)` in `diff_append`
(diff.c): the formatted line is silently truncated to 255 bytes. -/
def truncLine (l : Line) : Line := l.take (MAX_LINE_LEN - 1)

/-- `diff_append(diff, " %s", x)`: a kept line of the annotated diff. -/
def annKeep (l : Line) : Line := truncLine (' ' :: l)

/-- `diff_append(diff, "- %s", x)`: a removed line of the annotated diff. -/
def annDel (l : Line) : Line := truncLine ('-' :: ' ' :: l)

/-- `diff_append(diff, "+ %s", x)`: an added line of the annotated diff. -/
def annAdd (l : Line) : Line := truncLine ('+' :: ' ' :: l)

/-- The DP table of `lcs` (diff.c:87-101).  The table is allocated with
`calloc`, so every cell not written by the fill loops is zero.  The fill
loops run `for (i = m-1; i > 0u; i--)` and `for (j = n-1; j > 0u; j--)`:
they stop at index 1, so row 0 and column 0 are never written and stay
zero, as do the sentinel row `m` and column `n`.  CAUTION: the same
unsigned comparisons let a NEGATIVE start enter the loops — with `m = 0`
the outer loop runs with `i = -1` (`(unsigned)(-1) > 0u`), and with
`m ≥ 2, n = 0` the inner loop runs with `j = -1` — and the body then reads
`a[-1]`/`b[-1]` (or, for `m = 0, n ≤ 1`, decrements `i` without bound):
undefined behavior with no shallow embedding.  This function totalizes
those entries; theorems about the program must restrict themselves to the
defined shapes, which `lcs_defined_shape` below captures. -/
def dpTable (a b : List Line) (i j : Nat) : Nat :=
  if i = 0 ∨ j = 0 ∨ a.length ≤ i ∨ b.length ≤ j then 0
  else if a.getD i [] = b.getD j [] then 1 + dpTable a b (i + 1) (j + 1)
  else max (dpTable a b (i + 1) j) (dpTable a b i (j + 1))
termination_by (a.length - i) + (b.length - j)
decreasing_by
  all_goals simp_wf
  all_goals omega

/-- The backtracking loop of `lcs` (diff.c:103-119): while both indices are
in range, emit a kept line on a match, otherwise consume from `a` when
`dp[i+1][j] >= dp[i][j+1]` and from `b` otherwise; finally drain the
remaining lines of `a` as removed and of `b` as added. -/
def lcsBacktrack (a b : List Line) (i j : Nat) : List Line :=
  if h : i < a.length ∧ j < b.length then
    if a.getD i [] = b.getD j [] then
      annKeep (a.getD i []) :: lcsBacktrack a b (i + 1) (j + 1)
    else if dpTable a b (i + 1) j ≥ dpTable a b i (j + 1) then
      annDel (a.getD i []) :: lcsBacktrack a b (i + 1) j
    else
      annAdd (b.getD j []) :: lcsBacktrack a b i (j + 1)
  else
    (a.drop i).map annDel ++ (b.drop j).map annAdd
termination_by (a.length - i) + (b.length - j)
decreasing_by
  all_goals simp_wf
  all_goals omega

/-- `lcs(a, m, b, n, diff)` (diff.c:87-125): the annotated line sequence a
file-modified diff records.  Faithful only on the shapes where the fill
loops stay in bounds (see `dpTable` and `lcs_defined_shape`). -/
def lcs (a b : List Line) : List Line := lcsBacktrack a b 0 0

/-- The input shapes on which the fill loops of `lcs` (diff.c:94-95) have
defined behavior.  With `m = 1` the outer loop body never runs (`i` starts
at 0) and with `m ≥ 2, n ≥ 1` both counters stay within bounds; every
other shape enters a loop with a counter of `-1` through the `> 0u`
comparison — `m = 0` with `n ≥ 2` reads `a[-1]`, `m = 0` with `n ≤ 1`
decrements `i` without bound, and `m ≥ 2` with `n = 0` reads `b[-1]`. -/
def lcs_defined_shape (a b : List Line) : Prop :=
  a.length = 1 ∨ (1 ≤ a.length ∧ 1 ≤ b.length)

/-- `finversels` (ops.c:45-63): keep `' '`-lines (dropping one byte) and
`'-'`-lines (dropping two bytes), keep any line with a different first
byte verbatim (an empty line has first byte NUL), skip `'+'`-lines. -/
def finversels : List Line → List Line
  | [] => []
  | l :: rest =>
    if l.head? = some ' ' then l.tail :: finversels rest
    else if l.head? = some '-' then l.drop 2 :: finversels rest
    else if l.head? = some '+' then finversels rest
    else l :: finversels rest

/-- `fforwardls` (ops.c:74-92): keep `' '`-lines (dropping one byte) and
`'+'`-lines (dropping two bytes), keep any line with a different first
byte verbatim, skip `'-'`-lines. -/
def fforwardls : List Line → List Line
  | [] => []
  | l :: rest =>
    if l.head? = some ' ' then l.tail :: fforwardls rest
    else if l.head? = some '+' then l.drop 2 :: fforwardls rest
    else if l.head? = some '-' then fforwardls rest
    else l :: fforwardls rest

/-- The kept subsequence of an annotated diff: the contents of the lines
whose first byte is `' '`. -/
def keptLines (ls : List Line) : List Line :=
  (ls.filter (fun l => l.head? = some ' ')).map List.tail

/-- A line of 254 `'x'` bytes: together with the two annotation bytes it
overflows the 256-byte `diff_append` buffer. -/
def longLine : Line := List.replicate 254 'x'

/-! ## Hash module (src/hash.c) -/

/-- `rotl32(x, n)` (hash.c:25): rotate a 32-bit value left by `n` bits. -/
def rotl32 (x n : Nat) : Nat := ((x <<< n) ||| (x >>> (32 - n))) % 2 ^ 32

/-- The padded message of `sha1` (hash.c:84-94): the input, an `0x80` byte,
NUL padding from the `calloc`, and the bit length in the last eight bytes,
big-endian (`msg[padded_len-1-i] = bit_len >> (i*8)`). -/
def sha1PadMsg (data : List Nat) : List Nat :=
  let size := data.length
  let padded_len := ((size + 9 + 63) / 64) * 64
  let bit_len := size * 8
  data ++ [0x80] ++ List.replicate (padded_len - size - 9) 0 ++
    (List.range 8).map (fun t => (bit_len >>> ((7 - t) * 8)) % 256)

/-- Split the padded message into 64-byte chunks (hash.c:97). -/
def chunks64 (l : List Nat) : List (List Nat) :=
  if l = [] then [] else l.take 64 :: chunks64 (l.drop 64)
termination_by l.length
decreasing_by
  simp_wf
  rename_i h
  have : 0 < l.length := List.length_pos.mpr h
  omega

/-- The sixteen big-endian 32-bit words of one chunk (hash.c:101-103). -/
def sha1Words16 (c : List Nat) : List Nat :=
  (List.range 16).map (fun i =>
    ((c.getD (4 * i) 0) <<< 24) ||| ((c.getD (4 * i + 1) 0) <<< 16) |||
    ((c.getD (4 * i + 2) 0) <<< 8) ||| (c.getD (4 * i + 3) 0))

/-- The word-extension loop (hash.c:106-108): append
`rotl32(w[i-3] ^ w[i-8] ^ w[i-14] ^ w[i-16], 1)` until 80 words exist. -/
def sha1Extend (ws : List Nat) : Nat → List Nat
  | 0 => ws
  | k + 1 =>
    let n := ws.length
    sha1Extend (ws ++ [rotl32 (((ws.getD (n - 3) 0 ^^^ ws.getD (n - 8) 0) ^^^
      ws.getD (n - 14) 0) ^^^ ws.getD (n - 16) 0) 1]) k

/-- The round function `f` of the compression loop (hash.c:112-126). -/
def sha1F (i b c d : Nat) : Nat :=
  if i < 20 then (b &&& c) ||| ((b ^^^ 0xffffffff) &&& d)
  else if i < 40 then (b ^^^ c) ^^^ d
  else if i < 60 then ((b &&& c) ||| (b &&& d)) ||| (c &&& d)
  else (b ^^^ c) ^^^ d

/-- The round constant `k` of the compression loop (hash.c:112-126). -/
def sha1K (i : Nat) : Nat :=
  if i < 20 then 0x5a827999
  else if i < 40 then 0x6ed9eba1
  else if i < 60 then 0x8f1bbcdc
  else 0xca62c1d6

/-- One chunk of the main compression loop (hash.c:110-132). -/
def sha1Compress (st : Nat × Nat × Nat × Nat × Nat) (chunk : List Nat) :
    Nat × Nat × Nat × Nat × Nat :=
  let ws := sha1Extend (sha1Words16 chunk) 64
  let fin := ws.enum.foldl (fun (s : Nat × Nat × Nat × Nat × Nat) (iw : Nat × Nat) =>
    let (a, b, c, d, e) := s
    let j := (rotl32 a 5 + sha1F iw.1 b c d + e + sha1K iw.1 + iw.2) % 2 ^ 32
    (j, a, rotl32 b 30, c, d)) st
  ((st.1 + fin.1) % 2 ^ 32, (st.2.1 + fin.2.1) % 2 ^ 32, (st.2.2.1 + fin.2.2.1) % 2 ^ 32,
    (st.2.2.2.1 + fin.2.2.2.1) % 2 ^ 32, (st.2.2.2.2 + fin.2.2.2.2) % 2 ^ 32)

/-- `sha1(data, size, hash)` (hash.c:74-141): the 20-byte digest, big-endian. -/
def sha1Fn (data : List Nat) : List Nat :=
  let st := (chunks64 (sha1PadMsg data)).foldl sha1Compress
    (0x67452301, 0xefcdab89, 0x98badcfe, 0x10325476, 0xc3d2e1f0)
  ([st.1, st.2.1, st.2.2.1, st.2.2.2.1, st.2.2.2.2].map (fun h =>
    (List.range 4).map (fun j => (h >>> (24 - j * 8)) % 256))).flatten

/-- `strcrc32` (hash.c:278-285): `sprintf(string, "%d", hash)` renders the
unsigned CRC through a signed `int` conversion, so values of `2^31` and
above print with a minus sign, and no zero padding is applied. -/
def strcrc32 (crc : Nat) : String :=
  if crc < 2 ^ 31 then toString crc else "-" ++ toString (2 ^ 32 - crc)

/-! ## Commit writer and reader (src/commit.c) -/

/-- The bytes of an ASCII string literal. -/
def asciiBytes (s : String) : List Nat := s.toList.map Char.toNat

/-- The header string rendered by `create_commit` (commit.c:66-76).  The
`"diff count=%p"` field prints the address of `&commit->changes`; that
address rendering is taken as the parameter `addr`, and `rawtime` is
rendered in decimal by `%lu`. -/
def renderCommitHeader (message timestamp addr : List Nat) (rawtime : Nat) : List Nat :=
  asciiBytes "commit\nmessage=" ++ message ++ asciiBytes "\ntimestamp=" ++ timestamp ++
    asciiBytes "\ndiff count=" ++ addr ++ asciiBytes "\nrawtime=" ++
    asciiBytes (toString rawtime)

/-- The 128 bytes passed to `sha1(data, 128, commit->hash)` (commit.c:77):
the buffer is a `calloc(1, PATH_MAX)` zero block into which `snprintf`
wrote the header, so the hash input is the header truncated to 128 bytes
and padded with NUL bytes up to 128. -/
def first128 (r : List Nat) : List Nat := r.take 128 ++ List.replicate (128 - r.length) 0

/-- The sha1 computed by `create_commit` (commit.c:64-95). -/
def create_commit_hash (message timestamp addr : List Nat) (rawtime : Nat) : List Nat :=
  sha1Fn (first128 (renderCommitHeader message timestamp addr rawtime))

/-- The on-disk path `write_commit` stores a diff at (commit.c:108-121):
`.lit/objects/diffs/<s[0:2]>/<s[2:]>` where `s = strcrc32(crc)`. -/
def diff_store_path (crc : Nat) : String :=
  ".lit/objects/diffs/" ++ (strcrc32 crc).take 2 ++ "/" ++ (strcrc32 crc).drop 2

/-- The line `write_commit_to_stream` records for a diff (commit.c:151-153):
`fprintf(stream, "%u\n", change->crc)`, the unsigned decimal rendering. -/
def commit_crc_line (crc : Nat) : String := toString crc

/-- The path `read_commit_from_stream` rebuilds from a crc line of the
commit file (commit.c:233-234): `.lit/objects/diffs/<line[0:2]>/<line[2:]>`. -/
def diff_read_path (line : String) : String :=
  ".lit/objects/diffs/" ++ line.take 2 ++ "/" ++ line.drop 2

/-- Modelled from the spec: the spec renders a diff CRC as a decimal string
"zero-padded to at least four digits for fan-out"; this definition follows
those words for comparison with `strcrc32`, which is in the source. -/
def spec_crc_render (crc : Nat) : String :=
  let s := toString crc
  if s.length < 4 then String.mk (List.replicate (4 - s.length) '0') ++ s else s

/-- Modelled from the spec: the storage path the spec claims,
`.lit/objects/diffs/<crc[0:2]>/<crc[2:]>` over the zero-padded rendering. -/
def spec_diff_path (crc : Nat) : String :=
  ".lit/objects/diffs/" ++ (spec_crc_render crc).take 2 ++ "/" ++ (spec_crc_render crc).drop 2

/-- Messages sharing a 113-byte prefix: 113 `'m'` bytes then `'A'`. -/
def msgA : List Nat := List.replicate 113 109 ++ [65]

/-- Messages sharing a 113-byte prefix: 113 `'m'` bytes then `'B'`. -/
def msgB : List Nat := List.replicate 113 109 ++ [66]

/-! ## Repository data model

The record shapes follow the structs used by src/commit.c, src/repo.c,
src/rebase.c and src/cli.c (the newest generation in the tree): a diff has
`type`, `stored_path`, `new_path`, `lines` and `crc`; a commit has
`changes`, `timestamp`, `rawtime`, `path`, `message` and a 20-byte sha1
`hash`; a branch has `name`, `hash`, `commits` and a head index (named
`idx` in rebase.c); a repository has `readonly`, the active index `idx`
and `branches`.  Hashes are byte lists; dynamic arrays are lists. -/

inductive e_diff_type_t where
  | type_none | new_file | file_deleted | file_modified
  | new_folder | folder_deleted | folder_modified
deriving DecidableEq, Repr, Inhabited

structure diff_t where
  type : e_diff_type_t
  stored_path : String
  new_path : String
  lines : List Line
  crc : Nat
deriving DecidableEq, Repr, Inhabited

structure commit_t where
  changes : List diff_t
  timestamp : String
  rawtime : Int
  path : String
  message : String
  hash : List Nat
deriving DecidableEq, Repr, Inhabited

structure branch_t where
  name : String
  path : String
  hash : List Nat
  commits : List commit_t
  head : Nat
deriving DecidableEq, Repr, Inhabited

structure repository_t where
  readonly : Bool
  idx : Nat
  branches : List branch_t
deriving DecidableEq, Repr, Inhabited

/-- `tag_t` (tag.h): a named pointer to a commit of a branch. -/
structure tag_t where
  name : String
  commit_hash : List Nat
  branch_hash : List Nat
deriving DecidableEq, Repr, Inhabited

/-- Filesystem effects of the operations, recorded instead of performed. -/
inductive event_t where
  | ev_write_repository (r : repository_t)
  | ev_write_branch (b : branch_t)
  | ev_write_commit (c : commit_t)
  | ev_write_tag (t : tag_t)
  | ev_remove_path (p : String)
  | ev_apply_forward (c : commit_t)
  | ev_apply_inverse (c : commit_t)
deriving DecidableEq, Repr

/-! ## Repository operations (src/repo.c) -/

/-- The backward walk of `find_common_ancestor` (repo.c:55-66).  The step
decision in the source is `c1->timestamp > c2->timestamp`, which compares
the heap ADDRESSES of the two timestamp strings (`timestamp` is `char*`),
not time values; an address order has no shallow embedding, so the walk
takes the decision as the parameter `stepFirst`.  (The hash match in the
source is `memcmp(c1->hash, c2->hash, 32)` over a 20-byte `sha1_t`, an
overread of 12 bytes; it is modelled as 20-byte hash equality.) -/
def fcaWalk (stepFirst : commit_t → commit_t → Bool) (cs1 cs2 : List commit_t)
    (i j : Nat) : Option commit_t :=
  let c1 := cs1.getD i default
  let c2 := cs2.getD j default
  if c1.hash = c2.hash then some c1
  else if stepFirst c1 c2 then
    if i = 0 then none else fcaWalk stepFirst cs1 cs2 (i - 1) j
  else
    if j = 0 then none else fcaWalk stepFirst cs1 cs2 i (j - 1)
termination_by i + j
decreasing_by
  all_goals simp_wf
  all_goals omega

/-- `find_common_ancestor` (repo.c:41-68): nothing when either branch is
empty, otherwise the backward walk from the two last commits. -/
def find_common_ancestor (stepFirst : commit_t → commit_t → Bool)
    (b1 b2 : branch_t) : Option commit_t :=
  if b1.commits.length = 0 ∨ b2.commits.length = 0 then none
  else fcaWalk stepFirst b1.commits b2.commits
    (b1.commits.length - 1) (b2.commits.length - 1)

/-- Modelled from the spec: §4.9 steps "the side with the more recent commit
timestamp"; a commit's numeric time is its `rawtime`. -/
def spec_step (c1 c2 : commit_t) : Bool := decide (c2.rawtime < c1.rawtime)

/-- Modelled from the spec: the common-ancestor walk as §4.9 describes it,
stepping the side with the more recent timestamp. -/
def find_common_ancestor_spec (b1 b2 : branch_t) : Option commit_t :=
  find_common_ancestor spec_step b1 b2

/-- `find_index_commit` (repo.c:77-88): index of the first commit with the
same hash, `none` for the `-1` of the source. -/
def find_index_commit (b : branch_t) (c : commit_t) : Option Nat :=
  b.commits.findIdx? (fun cm => cm.hash == c.hash)

/-- `get_branch_repository` (repo.c:334-350): the first branch with the
name; the source exits the process when it is absent (`none`). -/
def get_branch_repository (repo : repository_t) (name : String) : Option branch_t :=
  repo.branches.find? (fun b => b.name == name)

/-- Modelled from the spec: `create_branch` is called by repo.c but its
definition is not under src/; §4.8 allocates a fresh branch with the given
name, no commits, and a fresh address-salted sha1 (taken as the parameter
`h`, an address being inexpressible in the embedding). -/
def create_branch (name : String) (h : List Nat) : branch_t :=
  { name := name, path := ".lit/refs/heads/" ++ name, hash := h,
    commits := [], head := 0 }

/-- `create_branch_repository` (repo.c:230-285): exit when the name already
exists; push a fresh branch; find the source branch by name (the new list
included, as the source pushes before searching); copy ALL of the source's
commit references — the loop `_foreach(from_branch->commits, ...)` iterates
the full list, pushing the original commit pointers — set the new branch's
head to the source's head, and persist the repository index and the new
branch. -/
def create_branch_repository (repo : repository_t) (name from_name : String)
    (h : List Nat) : Option (repository_t × branch_t × List event_t) :=
  if repo.branches.any (fun b => b.name == name) then none
  else
    let branch0 := create_branch name h
    match (repo.branches ++ [branch0]).find? (fun b => b.name == from_name) with
    | none => none
    | some from_branch =>
      let branch1 := { branch0 with
        commits := from_branch.commits, head := from_branch.head }
      let repo1 := { repo with branches := repo.branches ++ [branch1] }
      some (repo1, branch1,
        [event_t.ev_write_repository repo1, event_t.ev_write_branch branch1])

/-- `delete_branch_repository` (repo.c:294-325): exit on `"origin"` or an
absent name; remove the branch file and pop the branch out of the list. -/
def delete_branch_repository (repo : repository_t) (name : String) :
    Option (repository_t × List event_t) :=
  if name == "origin" then none
  else
    match repo.branches.findIdx? (fun b => b.name == name) with
    | none => none
    | some i =>
      some ({ repo with branches := repo.branches.eraseIdx i },
        [event_t.ev_remove_path (".lit/refs/heads/" ++ name)])

/-! ## Rebase engine (src/rebase.c) -/

/-- The nested print loop of `is_conflicting_commits` (rebase.c:31-46): all
pairs of diffs, one from each commit, with equal `new_path`, in iteration
order; each is printed to stderr and any makes the commits conflicting. -/
def conflict_pairs (first second : commit_t) : List (diff_t × diff_t) :=
  (first.changes.map (fun d1 =>
    (second.changes.filter (fun d2 => d1.new_path == d2.new_path)).map
      (fun d2 => (d1, d2)))).flatten

/-- `is_conflicting_commits` (rebase.c:24-48): whether any pair of diffs
collides, together with the printed pairs. -/
def is_conflicting_commits (first second : commit_t) : Bool × List (diff_t × diff_t) :=
  (!(conflict_pairs first second).isEmpty, conflict_pairs first second)

/-- The index range of the conflict scan of `is_rebase_possible`
(rebase.c:92): `i` from `ancestor_idx + 1` while `i < source->idx` and
`i < min(source->count, destination->count)`. -/
def rebase_scan_range (ancestor_idx : Nat) (source destination : branch_t) : List Nat :=
  List.range' (ancestor_idx + 1)
    (min source.head (min source.commits.length destination.commits.length) -
      (ancestor_idx + 1))

/-- `is_rebase_possible` (rebase.c:61-101): `none` for the process exits of
`get_branch_repository`; otherwise `false` with no pairs when there is no
common ancestor or it is not on the destination, else the scan over the
range with the pairs printed, `true` exactly when no conflict was found. -/
def is_rebase_possible (stepFirst : commit_t → commit_t → Bool)
    (repo : repository_t) (destination_branch_name source_branch_name : String) :
    Option (Bool × List (diff_t × diff_t)) :=
  match get_branch_repository repo destination_branch_name,
        get_branch_repository repo source_branch_name with
  | some destination, some source =>
    match find_common_ancestor stepFirst destination source with
    | none => some (false, [])
    | some ancestor =>
      match find_index_commit destination ancestor with
      | none => some (false, [])
      | some ancestor_idx =>
        let printed := ((rebase_scan_range ancestor_idx source destination).map
          (fun i => conflict_pairs (source.commits.getD i default)
            (destination.commits.getD i default))).flatten
        some (printed.isEmpty, printed)
  | _, _ => none

/-- `checkout` (ops.c:229-253): find the target commit by hash (exit when
absent), forward-apply the commits after the current index up to and
including the target, and set the index to the target. -/
def checkout (branch : branch_t) (commit : commit_t) :
    Option (branch_t × List event_t) :=
  match branch.commits.findIdx? (fun cm => cm.hash == commit.hash) with
  | none => none
  | some target_idx =>
    some ({ branch with head := target_idx },
      (List.range' (branch.head + 1) (target_idx + 1 - (branch.head + 1))).map
        (fun i => event_t.ev_apply_forward (branch.commits.getD i default)))

/-- Modelled from the spec: `add_commit_branch` is called by rebase.c but
its definition is not under src/; §4.10 appends the commit to the
destination's commit list. -/
def add_commit_branch (c : commit_t) (b : branch_t) : branch_t :=
  { b with commits := b.commits ++ [c] }

/-- Mutation through the pointer returned by `get_branch_repository`:
replace the first branch carrying the name. -/
def replace_branch : List branch_t → String → branch_t → List branch_t
  | [], _, _ => []
  | b :: rest, name, b' =>
    if b.name == name then b' :: rest else b :: replace_branch rest name b'

inductive e_rebase_result_t where
  | success | conflict | no_changes
deriving DecidableEq, Repr

/-- `rebase_branch` (rebase.c:111-152): when the rebase is not possible,
return `conflict` with the repository untouched and the pairs printed by
the scan; otherwise append the source commits past the ancestor to the
destination, advance its head (through `checkout` when the destination is
the active branch), and persist.  The returned tuple carries the result,
the repository, the printed conflict pairs, and the filesystem events. -/
def rebase_branch (stepFirst : commit_t → commit_t → Bool) (repo : repository_t)
    (destination_branch_name source_branch_name : String) :
    Option (e_rebase_result_t × repository_t × List (diff_t × diff_t) × List event_t) :=
  match is_rebase_possible stepFirst repo destination_branch_name source_branch_name with
  | none => none
  | some (possible, printed) =>
    if !possible then some (.conflict, repo, printed, [])
    else
      match get_branch_repository repo destination_branch_name,
            get_branch_repository repo source_branch_name with
      | some destination, some source =>
        match find_common_ancestor stepFirst destination source with
        | none => none
        | some ancestor =>
          match find_index_commit source ancestor with
          | none => none
          | some source_ancestor_idx =>
            let rebase_count := source.head - source_ancestor_idx
            let destination1 := (source.commits.drop (source_ancestor_idx + 1)).foldl
              (fun b c => add_commit_branch c b) destination
            if destination.name == (repo.branches.getD repo.idx default).name then
              match checkout destination1
                  (destination1.commits.getD (destination1.head + rebase_count) default) with
              | none => none
              | some (destination2, events) =>
                let branches1 :=
                  replace_branch repo.branches destination_branch_name destination2
                let repo1 := { repo with branches := branches1 }
                some (.success, repo1, printed,
                  events ++ [event_t.ev_write_branch destination2,
                    event_t.ev_write_repository repo1])
            else
              let destination2 :=
                { destination1 with head := destination1.head + rebase_count }
              let branches1 :=
                replace_branch repo.branches destination_branch_name destination2
              let repo1 := { repo with branches := branches1 }
              some (.success, repo1, printed,
                [event_t.ev_write_branch destination2,
                  event_t.ev_write_repository repo1])
      | _, _ => none

/-! ## CLI handlers (src/cli.c) and tags (src/tag.c) -/

/-- `handle_commit` (cli.c:172-232): the first statement is the read-only
guard, returning `-1` before anything is read or written; the rest of the
handler (shelved collection, commit creation, persistence) interacts with
the filesystem and is taken as the parameter `body`. -/
def handle_commit (body : repository_t → Int × repository_t × List event_t)
    (repo : repository_t) : Int × repository_t × List event_t :=
  if repo.readonly then (-1, repo, []) else body repo

/-- `handle_add` (cli.c:488-543): the first statement is the read-only
guard; the walk/shelve body is the parameter `body`. -/
def handle_add (body : repository_t → Int × repository_t × List event_t)
    (repo : repository_t) : Int × repository_t × List event_t :=
  if repo.readonly then (-1, repo, []) else body repo

/-- `handle_delete` (cli.c:545-587): the first statement is the read-only
guard; the walk/shelve body is the parameter `body`. -/
def handle_delete (body : repository_t → Int × repository_t × List event_t)
    (repo : repository_t) : Int × repository_t × List event_t :=
  if repo.readonly then (-1, repo, []) else body repo

/-- `handle_create_branch` (cli.c:589-613): no read-only guard; the `--from`
name defaults to the active branch, then `create_branch_repository` runs. -/
def handle_create_branch (repo : repository_t) (branch_name : String)
    (from_name : Option String) (h : List Nat) :
    Option (Int × repository_t × List event_t) :=
  let from_branch_name := from_name.getD (repo.branches.getD repo.idx default).name
  match create_branch_repository repo branch_name from_branch_name h with
  | none => none
  | some (repo1, _, events) => some (0, repo1, events)

inductive move_kind_t where
  | rollback | checkout
deriving DecidableEq, Repr

/-- The common tail of `handle_cr_move` (cli.c:326-336): set the active
branch's head to the target, write the branch, set
`readonly := target_idx != commits.length - 1`, write the index. -/
def cr_move_finish (repo : repository_t) (active : branch_t) (target_idx : Nat)
    (apply_events : List event_t) : Int × repository_t × List event_t :=
  let active1 := { active with head := target_idx }
  let repo1 := { repo with
    readonly := decide (target_idx ≠ active.commits.length - 1),
    branches := repo.branches.set repo.idx active1 }
  (0, repo1, apply_events ++
    [event_t.ev_write_branch active1, event_t.ev_write_repository repo1])

/-- `handle_cr_move` (cli.c:234-348), for a plain hash argument: find the
target commit on the active branch by 20-byte hash comparison (`-1` when
absent), reject a rollback target at or above the head and a checkout
target at or below it, apply the commits between head and target
(`rollback_op`/`checkout_op` are not under src/; their apply loops are
modelled from §4.7 as inverse/forward apply events), then finish. -/
def handle_cr_move (repo : repository_t) (kind : move_kind_t) (hash : List Nat) :
    Option (Int × repository_t × List event_t) :=
  let active := repo.branches.getD repo.idx default
  match active.commits.findIdx? (fun c => c.hash == hash) with
  | none => some (-1, repo, [])
  | some target_idx =>
    match kind with
    | .rollback =>
      if active.head ≤ target_idx then some (-1, repo, [])
      else some (cr_move_finish repo active target_idx
        ((List.range' (target_idx + 1) (active.head - target_idx)).reverse.map
          (fun i => event_t.ev_apply_inverse (active.commits.getD i default))))
    | .checkout =>
      if target_idx ≤ active.head then some (-1, repo, [])
      else some (cr_move_finish repo active target_idx
        ((List.range' (active.head + 1) (target_idx - active.head)).map
          (fun i => event_t.ev_apply_forward (active.commits.getD i default))))

/-- `create_tag` (tag.c:25-40): copy the name and the two 20-byte hashes. -/
def create_tag (branch : branch_t) (commit : commit_t) (name : String) : tag_t :=
  { name := name, commit_hash := commit.hash, branch_hash := branch.hash }

/-- `handle_add_tag` (cli.c:689-726): search the ACTIVE branch's commits for
the 20-byte hash; on failure report an error and return `-1` without
writing anything; on success create the tag and write it. -/
def handle_add_tag (repo : repository_t) (hash : List Nat) (tag_name : String) :
    Int × repository_t × List event_t :=
  let active := repo.branches.getD repo.idx default
  match active.commits.find? (fun c => c.hash == hash) with
  | none => (-1, repo, [])
  | some commit =>
    (0, repo, [event_t.ev_write_tag (create_tag active commit tag_name)])

/-- The storage paths `write_commit` (commit.c:102-135) writes the diffs of
a commit to, one per diff, derived from `strcrc32` of each diff's crc. -/
def write_commit_diff_paths (c : commit_t) : List String :=
  c.changes.map (fun d => diff_store_path d.crc)

/-- The crc lines `write_commit_to_stream` (commit.c:143-154) records in the
commit file, one per diff, in `%u` unsigned decimal. -/
def write_commit_crc_lines (c : commit_t) : List String :=
  c.changes.map (fun d => commit_crc_line d.crc)

/-- The paths `read_commit_from_stream` (commit.c:184-243) reads the diffs
back from, derived from the crc lines of the commit file. -/
def read_commit_diff_paths (ls : List String) : List String := ls.map diff_read_path

/-- A diff with crc 5, for the C5 counterexample. -/
def diff5 : diff_t :=
  { type := .new_file, stored_path := "f", new_path := "f", lines := [], crc := 5 }

/-- A one-diff commit whose diff has crc 5, for the C5 counterexample. -/
def commit5 : commit_t :=
  { changes := [diff5], timestamp := "t", rawtime := 0, path := "p",
    message := "m", hash := List.replicate 20 0 }

/-- A diff with crc 1234567, for the C5 witness. -/
def diffW : diff_t :=
  { type := .new_file, stored_path := "f", new_path := "f", lines := [], crc := 1234567 }

/-- A one-diff commit whose diff has crc 1234567, for the C5 witness. -/
def commitW : commit_t :=
  { changes := [diffW], timestamp := "t", rawtime := 0, path := "p",
    message := "m", hash := List.replicate 20 0 }

/-! ## Concrete fixtures for counterexamples and witnesses -/

/-- A 20-byte hash held only by a commit of the non-active branch. -/
def hashOnly1 : List Nat := List.replicate 20 7

/-- A commit carrying `hashOnly1`, sitting on the non-active branch. -/
def commitB1 : commit_t :=
  { changes := [], timestamp := "t", rawtime := 1, path := "p",
    message := "m", hash := hashOnly1 }

/-- An `origin` branch with no commits. -/
def branch0 : branch_t :=
  { name := "origin", path := "", hash := List.replicate 20 1,
    commits := [], head := 0 }

/-- A `dev` branch holding `commitB1`. -/
def branch1 : branch_t :=
  { name := "dev", path := "", hash := List.replicate 20 2,
    commits := [commitB1], head := 0 }

/-- A repository whose active branch (index 0) lacks `hashOnly1`. -/
def repoC10 : repository_t :=
  { readonly := false, idx := 0, branches := [branch0, branch1] }

/-- The shared ancestor commit for the common-ancestor walk. -/
def commitAnc : commit_t :=
  { changes := [], timestamp := "ts-a", rawtime := 50, path := "",
    message := "a", hash := [3] }

/-- A later commit on the second branch only. -/
def commitY : commit_t :=
  { changes := [], timestamp := "ts-y", rawtime := 100, path := "",
    message := "y", hash := [4] }

/-- A branch holding only the ancestor. -/
def branchOne : branch_t :=
  { name := "b1", path := "", hash := [], commits := [commitAnc], head := 0 }

/-- A branch holding the ancestor and a newer commit. -/
def branchTwo : branch_t :=
  { name := "b2", path := "", hash := [], commits := [commitAnc, commitY], head := 1 }

/-- Two commits for the branch-copy counterexample. -/
def commitR0 : commit_t :=
  { changes := [], timestamp := "r0", rawtime := 1, path := "",
    message := "r0", hash := [10] }

def commitR1 : commit_t :=
  { changes := [], timestamp := "r1", rawtime := 2, path := "",
    message := "r1", hash := [11] }

/-- An `origin` branch with two commits whose head was rolled back to 0. -/
def originB : branch_t :=
  { name := "origin", path := "", hash := [1],
    commits := [commitR0, commitR1], head := 0 }

/-- A repository with the rolled-back `origin` branch. -/
def repoC7 : repository_t :=
  { readonly := false, idx := 0, branches := [originB] }

/-- The same repository in read-only mode. -/
def repoRO : repository_t :=
  { readonly := true, idx := 0, branches := [originB] }

/-- Conflicting diffs on the same `new_path` for the rebase fixture. -/
def diffS : diff_t :=
  { type := .file_modified, stored_path := "hello.txt", new_path := "hello.txt",
    lines := [], crc := 11 }

def diffD : diff_t :=
  { type := .file_modified, stored_path := "hello.txt", new_path := "hello.txt",
    lines := [], crc := 22 }

/-- The rebase fixture: shared base commit. -/
def commitBase : commit_t :=
  { changes := [], timestamp := "t0", rawtime := 0, path := "",
    message := "base", hash := [1] }

/-- Source-branch commit touching `hello.txt`. -/
def commitS1 : commit_t :=
  { changes := [diffS], timestamp := "t1", rawtime := 1, path := "",
    message := "s1", hash := [2] }

/-- A further source-branch commit. -/
def commitS2 : commit_t :=
  { changes := [], timestamp := "t3", rawtime := 3, path := "",
    message := "s2", hash := [3] }

/-- Destination-branch commit also touching `hello.txt`. -/
def commitD1 : commit_t :=
  { changes := [diffD], timestamp := "t2", rawtime := 2, path := "",
    message := "d1", hash := [4] }

/-- The rebase source branch. -/
def srcB : branch_t :=
  { name := "dev", path := "", hash := [8],
    commits := [commitBase, commitS1, commitS2], head := 2 }

/-- The rebase destination branch. -/
def dstB : branch_t :=
  { name := "main", path := "", hash := [9],
    commits := [commitBase, commitD1], head := 1 }

/-- The rebase fixture repository. -/
def repoC3 : repository_t :=
  { readonly := false, idx := 0, branches := [dstB, srcB] }

/-- A kept line of at most 254 bytes is not truncated. -/
theorem annKeep_eq (l : Line) (h : l.length ≤ 254) : annKeep l = ' ' :: l := by
  unfold annKeep truncLine MAX_LINE_LEN
  apply List.take_of_length_le
  simp
  omega

/-- A removed line of at most 253 bytes is not truncated. -/
theorem annDel_eq (l : Line) (h : l.length ≤ 253) : annDel l = '-' :: ' ' :: l := by
  unfold annDel truncLine MAX_LINE_LEN
  apply List.take_of_length_le
  simp
  omega

/-- An added line of at most 253 bytes is not truncated. -/
theorem annAdd_eq (l : Line) (h : l.length ≤ 253) : annAdd l = '+' :: ' ' :: l := by
  unfold annAdd truncLine MAX_LINE_LEN
  apply List.take_of_length_le
  simp
  omega

example : lcs [['x']] [['y'], ['x']] =
    [['-', ' ', 'x'], ['+', ' ', 'y'], ['+', ' ', 'x']] := by
  simp [lcs, lcsBacktrack, dpTable, annKeep_eq, annDel_eq, annAdd_eq]

example : finversels (lcs [['a'], ['b']] [['a'], ['c']]) = [['a'], ['b']] := by
  simp [lcs, lcsBacktrack, dpTable, annKeep_eq, annDel_eq, annAdd_eq, finversels]

example : fforwardls (lcs [['a'], ['b']] [['a'], ['c']]) = [['a'], ['c']] := by
  simp [lcs, lcsBacktrack, dpTable, annKeep_eq, annDel_eq, annAdd_eq, fforwardls]

/-- An added line always starts with the byte `'+'`, truncated or not. -/
theorem annAdd_cons (l : Line) : annAdd l = '+' :: (' ' :: l).take 254 := rfl

/-- A removed line always starts with the byte `'-'`, truncated or not. -/
theorem annDel_cons (l : Line) : annDel l = '-' :: (' ' :: l).take 254 := rfl

/-- A kept line always starts with the byte `' '`, truncated or not. -/
theorem annKeep_cons (l : Line) : annKeep l = ' ' :: l.take 254 := rfl

theorem finversels_append (xs ys : List Line) :
    finversels (xs ++ ys) = finversels xs ++ finversels ys := by
  induction xs with
  | nil => rfl
  | cons l rest ih =>
    simp only [List.cons_append, finversels]
    split_ifs <;> simp [ih]

theorem fforwardls_append (xs ys : List Line) :
    fforwardls (xs ++ ys) = fforwardls xs ++ fforwardls ys := by
  induction xs with
  | nil => rfl
  | cons l rest ih =>
    simp only [List.cons_append, fforwardls]
    split_ifs <;> simp [ih]

theorem finversels_cons_keep (x : Line) (hx : x.length ≤ 254) (rest : List Line) :
    finversels (annKeep x :: rest) = x :: finversels rest := by
  rw [annKeep_eq x hx]
  simp [finversels]

theorem finversels_cons_del (x : Line) (hx : x.length ≤ 253) (rest : List Line) :
    finversels (annDel x :: rest) = x :: finversels rest := by
  rw [annDel_eq x hx]
  simp [finversels]

theorem finversels_cons_add (x : Line) (rest : List Line) :
    finversels (annAdd x :: rest) = finversels rest := by
  rw [annAdd_cons]
  simp [finversels]

theorem fforwardls_cons_keep (x : Line) (hx : x.length ≤ 254) (rest : List Line) :
    fforwardls (annKeep x :: rest) = x :: fforwardls rest := by
  rw [annKeep_eq x hx]
  simp [fforwardls]

theorem fforwardls_cons_add (x : Line) (hx : x.length ≤ 253) (rest : List Line) :
    fforwardls (annAdd x :: rest) = x :: fforwardls rest := by
  rw [annAdd_eq x hx]
  simp [fforwardls]

theorem fforwardls_cons_del (x : Line) (rest : List Line) :
    fforwardls (annDel x :: rest) = fforwardls rest := by
  rw [annDel_cons]
  simp [fforwardls]

theorem finversels_map_annDel (ls : List Line) (h : ∀ l ∈ ls, l.length ≤ 253) :
    finversels (ls.map annDel) = ls := by
  induction ls with
  | nil => rfl
  | cons l rest ih =>
    rw [List.map_cons, finversels_cons_del l (h l (by simp)),
      ih (fun x hx => h x (by simp [hx]))]

theorem finversels_map_annAdd (ls : List Line) : finversels (ls.map annAdd) = [] := by
  induction ls with
  | nil => rfl
  | cons l rest ih => rw [List.map_cons, finversels_cons_add, ih]

theorem fforwardls_map_annAdd (ls : List Line) (h : ∀ l ∈ ls, l.length ≤ 253) :
    fforwardls (ls.map annAdd) = ls := by
  induction ls with
  | nil => rfl
  | cons l rest ih =>
    rw [List.map_cons, fforwardls_cons_add l (h l (by simp)),
      ih (fun x hx => h x (by simp [hx]))]

theorem fforwardls_map_annDel (ls : List Line) : fforwardls (ls.map annDel) = [] := by
  induction ls with
  | nil => rfl
  | cons l rest ih => rw [List.map_cons, fforwardls_cons_del, ih]

theorem drop_getD_cons (a : List Line) (i : Nat) (h : i < a.length) :
    a.drop i = a.getD i [] :: a.drop (i + 1) := by
  rw [List.drop_eq_getElem_cons h, List.getD_eq_getElem]

theorem getD_mem_line (a : List Line) (i : Nat) (h : i < a.length) : a.getD i [] ∈ a := by
  rw [List.getD_eq_getElem a [] h]
  exact List.getElem_mem h

/-- The materialisation round trip for the drained tail of the backtrack. -/
theorem lcs_drain_roundtrip (a b : List Line)
    (ha : ∀ l ∈ a, l.length ≤ 253) (hb : ∀ l ∈ b, l.length ≤ 253) (i j : Nat) :
    finversels ((a.drop i).map annDel ++ (b.drop j).map annAdd) = a.drop i ∧
    fforwardls ((a.drop i).map annDel ++ (b.drop j).map annAdd) = b.drop j := by
  constructor
  · rw [finversels_append, finversels_map_annAdd,
      finversels_map_annDel _ (fun l hl => ha l (List.mem_of_mem_drop hl))]
    simp
  · rw [fforwardls_append, fforwardls_map_annDel,
      fforwardls_map_annAdd _ (fun l hl => hb l (List.mem_of_mem_drop hl))]
    simp

/-- Round trip of the backtracking loop: whatever the DP table contains,
the lines of `a` not yet consumed come back out of `finversels` and the
lines of `b` not yet consumed come back out of `fforwardls`. -/
theorem lcsBacktrack_roundtrip (k : Nat) (a b : List Line)
    (ha : ∀ l ∈ a, l.length ≤ 253) (hb : ∀ l ∈ b, l.length ≤ 253) (i j : Nat)
    (hk : (a.length - i) + (b.length - j) ≤ k) :
    finversels (lcsBacktrack a b i j) = a.drop i ∧
    fforwardls (lcsBacktrack a b i j) = b.drop j := by
  induction k generalizing i j with
  | zero =>
    rw [lcsBacktrack.eq_def]
    have h1 : ¬ (i < a.length ∧ j < b.length) := by omega
    rw [dif_neg h1]
    exact lcs_drain_roundtrip a b ha hb i j
  | succ k ih =>
    rw [lcsBacktrack.eq_def]
    by_cases h1 : i < a.length ∧ j < b.length
    · rw [dif_pos h1]
      have hxa : (a.getD i []).length ≤ 253 := ha _ (getD_mem_line a i h1.1)
      have hxb : (b.getD j []).length ≤ 253 := hb _ (getD_mem_line b j h1.2)
      by_cases h2 : a.getD i [] = b.getD j []
      · rw [if_pos h2]
        obtain ⟨r1, r2⟩ := ih (i + 1) (j + 1) (by omega)
        refine ⟨?_, ?_⟩
        · rw [finversels_cons_keep _ (by omega), r1, ← drop_getD_cons a i h1.1]
        · rw [fforwardls_cons_keep _ (by omega), r2, h2, ← drop_getD_cons b j h1.2]
      · rw [if_neg h2]
        by_cases h3 : dpTable a b (i + 1) j ≥ dpTable a b i (j + 1)
        · rw [if_pos h3]
          obtain ⟨r1, r2⟩ := ih (i + 1) j (by omega)
          refine ⟨?_, ?_⟩
          · rw [finversels_cons_del _ hxa, r1, ← drop_getD_cons a i h1.1]
          · rw [fforwardls_cons_del, r2]
        · rw [if_neg h3]
          obtain ⟨r1, r2⟩ := ih i (j + 1) (by omega)
          refine ⟨?_, ?_⟩
          · rw [finversels_cons_add, r1]
          · rw [fforwardls_cons_add _ hxb, r2, ← drop_getD_cons b j h1.2]
    · rw [dif_neg h1]
      exact lcs_drain_roundtrip a b ha hb i j

/-- C1 (amended): for line sequences of a shape on which the fill loops of
`lcs` have defined behavior (`|A| = 1`, or `|A| ≥ 1 and |B| ≥ 1`; on the
other shapes the `i > 0u`/`j > 0u` comparisons let the loops run with a
counter of `-1` and the program reads out of bounds or loops without
bound) and whose lines are at most 253 bytes long, the inverse
materialisation of the annotated sequence produced by `lcs` restores the
old lines exactly and the forward materialisation restores the new lines
exactly, so applying a file-modified (non-rename) diff forward and then
inverse restores the file's lines byte-for-byte. -/
theorem C1_materialisation_roundtrip (a b : List Line)
    (_hshape : lcs_defined_shape a b)
    (ha : ∀ l ∈ a, l.length ≤ 253) (hb : ∀ l ∈ b, l.length ≤ 253) :
    finversels (lcs a b) = a ∧ fforwardls (lcs a b) = b := by
  have h := lcsBacktrack_roundtrip (a.length + b.length) a b ha hb 0 0 (by omega)
  simpa [lcs] using h

theorem C1_materialisation_roundtrip_witness :
    lcs_defined_shape [[('a' : Char)], [('b' : Char)]] [[('a' : Char)], [('c' : Char)]] ∧
    (∀ l ∈ [[('a' : Char)], [('b' : Char)]], List.length l ≤ 253) ∧
    (∀ l ∈ [[('a' : Char)], [('c' : Char)]], List.length l ≤ 253) ∧
    finversels (lcs [['a'], ['b']] [['a'], ['c']]) = [['a'], ['b']] ∧
    fforwardls (lcs [['a'], ['b']] [['a'], ['c']]) = [['a'], ['c']] :=
  ⟨Or.inr ⟨by decide, by decide⟩, by decide, by decide,
    C1_materialisation_roundtrip [['a'], ['b']] [['a'], ['c']]
      (Or.inr ⟨by decide, by decide⟩) (by decide) (by decide)⟩

/-- C1 (counterexample): on a 254-byte line the removed-line annotation
`"- %s"` overflows the 256-byte line buffer of `diff_append` and is
silently truncated, so the inverse materialisation loses the last byte
and the round trip is not byte-for-byte.  The input has `|A| = 1`, a
shape on which the fill loops never run and the program's behavior is
defined (see `lcs_defined_shape`). -/
theorem C1_counterexample :
    ¬ (finversels (lcs [longLine] []) = [longLine] ∧
       fforwardls (lcs [longLine] []) = ([] : List Line)) := by
  intro hc
  have hval : lcs [longLine] [] = [annDel longLine] := by
    rw [lcs, lcsBacktrack.eq_def]
    simp
  have htake : (' ' :: longLine).take 254 = ' ' :: List.replicate 253 'x' := by
    rw [longLine, show (254 : Nat) = 253 + 1 from rfl, List.take_succ_cons,
      List.take_replicate]
    norm_num
  have hlen253 : (List.replicate 253 'x').length ≤ 253 :=
    Nat.le_of_eq (List.length_replicate 253 'x')
  have hstep : finversels [annDel longLine] = [List.replicate 253 'x'] := by
    rw [annDel_cons, htake, ← annDel_eq (List.replicate 253 'x') hlen253,
      finversels_cons_del _ hlen253]
    rfl
  have h1 := hc.1
  rw [hval, hstep] at h1
  have h2 := congrArg (fun l => (l.headD []).length) h1
  simp only [longLine, List.headD_cons, List.length_replicate] at h2
  exact absurd h2 (by omega)

/-- C2 (code bug): the DP fill loops of `lcs` stop at index 1 (`i > 0u`,
`j > 0u` in diff.c:94-95), leaving row 0 and column 0 of the table zero,
so the backtrack can discard a matchable first line.  On `A = ["x"]`,
`B = ["y", "x"]` the annotated output is `["- x", "+ y", "+ x"]`: its kept
subsequence is empty although `["x"]` is a common subsequence of `A` and
`B` of length 1, so the kept subsequence is not a longest common
subsequence. -/
theorem C2_kept_not_longest :
    lcs [['x']] [['y'], ['x']] = [['-', ' ', 'x'], ['+', ' ', 'y'], ['+', ' ', 'x']] ∧
    keptLines (lcs [['x']] [['y'], ['x']]) = [] ∧
    List.Sublist [[('x' : Char)]] [[('x' : Char)]] ∧
    List.Sublist [[('x' : Char)]] [[('y' : Char)], [('x' : Char)]] ∧
    (keptLines (lcs [['x']] [['y'], ['x']])).length < [[('x' : Char)]].length := by
  have hval : lcs [['x']] [['y'], ['x']] =
      [['-', ' ', 'x'], ['+', ' ', 'y'], ['+', ' ', 'x']] := by
    simp [lcs, lcsBacktrack, dpTable, annKeep_eq, annDel_eq, annAdd_eq]
  refine ⟨hval, ?_, List.Sublist.refl _, List.Sublist.cons _ (List.Sublist.refl _), ?_⟩
  · rw [hval]
    simp [keptLines]
  · rw [hval]
    simp [keptLines]

/-- C5 (counterexample): `strcrc32` renders a CRC with `sprintf("%d", ...)`,
with no zero padding (and through a signed conversion), so the diff of a
commit whose crc is 5 is stored under `.lit/objects/diffs/5/`, not under
the spec's zero-padded `.lit/objects/diffs/00/05`. -/
theorem C5_counterexample :
    write_commit_diff_paths commit5 ≠ [spec_diff_path 5] := by decide

/-- C5 (amended): each diff of a commit is stored at
`.lit/objects/diffs/<s[0:2]>/<s[2:]>` where `s` is the UNPADDED signed
decimal rendering of the crc, while the commit file records the unsigned
decimal rendering; for crcs strictly between 0 and `2^31` the two renderings
coincide, so `read_commit` reconstructs every diff from exactly the path
`write_commit` stored it at. -/
theorem C5_diff_path_roundtrip (c : commit_t)
    (h : ∀ d ∈ c.changes, 0 < d.crc ∧ d.crc < 2 ^ 31) :
    read_commit_diff_paths (write_commit_crc_lines c) = write_commit_diff_paths c := by
  unfold read_commit_diff_paths write_commit_crc_lines write_commit_diff_paths
  rw [List.map_map]
  apply List.map_congr_left
  intro d hd
  simp only [Function.comp]
  unfold diff_read_path commit_crc_line diff_store_path strcrc32
  rw [if_pos (h d hd).2]

theorem C5_diff_path_roundtrip_witness :
    (∀ d ∈ commitW.changes, 0 < d.crc ∧ d.crc < 2 ^ 31) ∧
    read_commit_diff_paths (write_commit_crc_lines commitW) =
      write_commit_diff_paths commitW :=
  ⟨by decide, C5_diff_path_roundtrip commitW (by decide)⟩

/-- With at least 113 bytes after a 15-byte literal, `first128` keeps the
literal and the first 113 following bytes, and the zero padding is empty. -/
theorem first128_of_ge (P X : List Nat) (hP : P.length = 15) (hX : 113 ≤ X.length) :
    first128 (P ++ X) = P ++ X.take 113 := by
  unfold first128
  rw [List.take_append_eq_append_take,
    List.take_of_length_le (le_trans (le_of_eq hP) (by omega)), hP]
  have hz : 128 - (P ++ X).length = 0 := by
    rw [List.length_append, hP]
    omega
  rw [hz]
  simp

/-- With a message of at least 113 bytes, the 128 hashed bytes are the
15-byte literal `"commit\nmessage="` followed by the first 113 bytes of
the message; nothing after the message reaches the hash input. -/
theorem first128_renderCommitHeader (m t a : List Nat) (r : Nat) (hm : 113 ≤ m.length) :
    first128 (renderCommitHeader m t a r) =
      asciiBytes "commit\nmessage=" ++ m.take 113 := by
  have hP : (asciiBytes "commit\nmessage=").length = 15 := by decide
  unfold renderCommitHeader
  simp only [List.append_assoc]
  rw [first128_of_ge _ _ hP (by simp only [List.length_append]; omega),
    List.take_append_of_le_length hm]

/-- C9: `create_commit` calls `sha1(data, 128, commit->hash)` on a
`calloc`ed buffer holding the rendered header, so the commit sha1 is a
function of exactly the first 128 bytes of the rendered header; in
particular, since `"commit\nmessage="` occupies 15 bytes, two commits
whose messages share a common prefix of 113 or more bytes receive the
same sha1 regardless of their timestamps, raw seconds, changes, or the
rendered address field. -/
theorem C9_commit_hash_first128 :
    (∀ (m1 t1 a1 : List Nat) (r1 : Nat) (m2 t2 a2 : List Nat) (r2 : Nat),
      first128 (renderCommitHeader m1 t1 a1 r1) =
        first128 (renderCommitHeader m2 t2 a2 r2) →
      create_commit_hash m1 t1 a1 r1 = create_commit_hash m2 t2 a2 r2) ∧
    (∀ (m1 t1 a1 : List Nat) (r1 : Nat) (m2 t2 a2 : List Nat) (r2 : Nat),
      113 ≤ m1.length → 113 ≤ m2.length → m1.take 113 = m2.take 113 →
      create_commit_hash m1 t1 a1 r1 = create_commit_hash m2 t2 a2 r2) := by
  constructor
  · intro m1 t1 a1 r1 m2 t2 a2 r2 h
    unfold create_commit_hash
    rw [h]
  · intro m1 t1 a1 r1 m2 t2 a2 r2 h1 h2 h3
    unfold create_commit_hash
    rw [first128_renderCommitHeader m1 t1 a1 r1 h1,
      first128_renderCommitHeader m2 t2 a2 r2 h2, h3]

theorem C9_commit_hash_first128_witness :
    113 ≤ msgA.length ∧ 113 ≤ msgB.length ∧ msgA.take 113 = msgB.take 113 ∧
    create_commit_hash msgA (asciiBytes "2026-01-01 10:00:00") (asciiBytes "0x1000") 100 =
      create_commit_hash msgB (asciiBytes "2027-02-02 20:30:00") (asciiBytes "0x2000") 200 :=
  ⟨by decide, by decide, by decide,
    C9_commit_hash_first128.2 msgA _ _ _ msgB _ _ _ (by decide) (by decide) (by decide)⟩

/-- C10: `handle_add_tag` searches only the ACTIVE branch's commit list for
the given commit hash; for every hash not on the active branch — in
particular a hash present only on a non-active branch — it reports an
error and returns `-1` without writing any tag file. -/
theorem C10_add_tag_requires_active_branch (repo : repository_t) (hash : List Nat)
    (tag_name : String)
    (h : hash ∉ (repo.branches.getD repo.idx default).commits.map commit_t.hash) :
    handle_add_tag repo hash tag_name = (-1, repo, []) := by
  unfold handle_add_tag
  have hf : (repo.branches.getD repo.idx default).commits.find?
      (fun c => c.hash == hash) = none := by
    rw [List.find?_eq_none]
    intro c hc hbeq
    exact h (List.mem_map.mpr ⟨c, hc, beq_iff_eq.mp hbeq⟩)
  simp only [hf]

theorem C10_add_tag_requires_active_branch_witness :
    hashOnly1 ∉ (repoC10.branches.getD repoC10.idx default).commits.map commit_t.hash ∧
    (∃ b ∈ repoC10.branches, hashOnly1 ∈ b.commits.map commit_t.hash) ∧
    handle_add_tag repoC10 hashOnly1 "v1" = (-1, repoC10, []) :=
  ⟨by decide, by decide,
    C10_add_tag_requires_active_branch repoC10 hashOnly1 "v1" (by decide)⟩

/-- C4 (code bug): `find_common_ancestor` decides which side to step with
`c1->timestamp > c2->timestamp`, a comparison of the heap ADDRESSES of the
two timestamp strings (`timestamp` is a `char*`), not of time values (and
matches hashes with `memcmp(..., 32)` over a 20-byte field).  Whatever the
allocator produced is modelled by the step oracle: with the address order
that steps the first branch (`fun _ _ => true`), the walk on
`B1 = [A]`, `B2 = [A, Y]` steps past `A` and returns nothing, while the
spec's timestamp walk (`rawtime` comparison) finds the shared commit `A`,
which lies on both branches. -/
theorem C4_ancestor_walk_address_bug :
    find_common_ancestor (fun _ _ => true) branchOne branchTwo = none ∧
    find_common_ancestor_spec branchOne branchTwo = some commitAnc ∧
    commitAnc.hash ∈ branchOne.commits.map commit_t.hash ∧
    commitAnc.hash ∈ branchTwo.commits.map commit_t.hash := by
  refine ⟨?_, ?_, by decide, by decide⟩
  · simp [find_common_ancestor, branchOne, branchTwo, fcaWalk, commitAnc, commitY]
  · simp [find_common_ancestor_spec, find_common_ancestor, branchOne, branchTwo,
      fcaWalk, spec_step, commitAnc, commitY]

/-- C7 (counterexample): `create_branch_repository` iterates the WHOLE of
`from_branch->commits`, so from a source branch with two commits and head
rolled back to 0 the new branch receives 2 commit references, not the
`head + 1 = 1` the claim states. -/
theorem C7_counterexample :
    (create_branch_repository repoC7 "dev" "origin" [2]).map
      (fun r => r.2.1.commits.length) = some 2 ∧
    originB.head + 1 = 1 := by
  constructor
  · decide
  · rfl

/-- C7 (amended): for a fresh name and an existing source branch,
`create_branch_repository` creates a branch sharing ALL of the source's
commit references (the entire commit list, by identity), with its head
equal to the source's head, appends it to the repository's branch list,
and persists the repository index and the new branch. -/
theorem C7_create_branch_copies_all (repo : repository_t) (name from_name : String)
    (h : List Nat) (from_branch : branch_t)
    (h1 : repo.branches.any (fun b => b.name == name) = false)
    (h2 : (repo.branches ++ [create_branch name h]).find? (fun b => b.name == from_name) =
      some from_branch) :
    ∃ branch1 : branch_t,
      create_branch_repository repo name from_name h =
        some ({ repo with branches := repo.branches ++ [branch1] }, branch1,
          [event_t.ev_write_repository { repo with branches := repo.branches ++ [branch1] },
            event_t.ev_write_branch branch1]) ∧
      branch1.commits = from_branch.commits ∧
      branch1.head = from_branch.head ∧
      branch1.name = name := by
  refine ⟨{ create_branch name h with
    commits := from_branch.commits, head := from_branch.head }, ?_, rfl, rfl, rfl⟩
  unfold create_branch_repository
  simp only [h1, Bool.false_eq_true, if_false, h2]

theorem C7_create_branch_copies_all_witness :
    (repoC7.branches.any (fun b => b.name == "dev") = false) ∧
    ((repoC7.branches ++ [create_branch "dev" [2]]).find? (fun b => b.name == "origin") =
      some originB) ∧
    ∃ branch1 : branch_t,
      create_branch_repository repoC7 "dev" "origin" [2] =
        some ({ repoC7 with branches := repoC7.branches ++ [branch1] }, branch1,
          [event_t.ev_write_repository
              { repoC7 with branches := repoC7.branches ++ [branch1] },
            event_t.ev_write_branch branch1]) ∧
      branch1.commits = originB.commits ∧
      branch1.head = originB.head ∧
      branch1.name = "dev" :=
  ⟨by decide, by decide,
    C7_create_branch_copies_all repoC7 "dev" "origin" [2] originB (by decide) (by decide)⟩

theorem getD_set_self (l : List branch_t) (n : Nat) (b : branch_t) (h : n < l.length) :
    (l.set n b).getD n default = b := by
  rw [List.getD_eq_getElem _ _ (by simpa using h)]
  simp [List.getElem_set]

theorem create_branch_repository_readonly (repo : repository_t) (name from_name : String)
    (h : List Nat) (r : repository_t) (b : branch_t) (ev : List event_t)
    (heq : create_branch_repository repo name from_name h = some (r, b, ev)) :
    r.readonly = repo.readonly := by
  unfold create_branch_repository at heq
  by_cases hex : repo.branches.any (fun bb => bb.name == name)
  · rw [if_pos hex] at heq
    cases heq
  · rw [if_neg hex] at heq
    cases hfind : (repo.branches ++ [create_branch name h]).find?
        (fun bb => bb.name == from_name) with
    | none =>
      simp [hfind] at heq
    | some fb =>
      simp only [hfind, Option.some.injEq, Prod.mk.injEq] at heq
      obtain ⟨hr, -, -⟩ := heq
      rw [← hr]

/-- C8 (counterexample): `handle_create_branch` has no read-only check: on a
read-only repository it creates the branch, returns exit code 0, and grows
the branch list, rather than failing and leaving the state unchanged. -/
theorem C8_counterexample :
    repoRO.readonly = true ∧
    (handle_create_branch repoRO "dev" (some "origin") [2]).map
      (fun r => (r.1, r.2.1.branches.length)) = some (0, 2) ∧
    repoRO.branches.length = 1 := by
  refine ⟨rfl, by decide, rfl⟩

/-- C8 (amended): when `repository.readonly` is true the commit, add and
delete handlers fail with `-1` before touching anything; the rollback and
checkout handler sets the flag to `target_idx != commits.length - 1`, so a
successful move clears it exactly when the new head is the last commit;
branch creation carries the flag through unchanged (it has no guard). -/
theorem C8_readonly_guard (bodyC bodyA bodyD : repository_t → Int × repository_t × List event_t)
    (repo : repository_t) (hro : repo.readonly = true) :
    handle_commit bodyC repo = (-1, repo, []) ∧
    handle_add bodyA repo = (-1, repo, []) ∧
    handle_delete bodyD repo = (-1, repo, []) ∧
    (∀ (kind : move_kind_t) (hash : List Nat) (code : Int) (repo1 : repository_t)
        (events : List event_t),
      handle_cr_move repo kind hash = some (code, repo1, events) → code = 0 →
      (repo1.readonly = false ↔
        (repo1.branches.getD repo.idx default).head =
          (repo.branches.getD repo.idx default).commits.length - 1)) ∧
    (∀ (name : String) (from_name : Option String) (hh : List Nat) (code : Int)
        (repo1 : repository_t) (events : List event_t),
      handle_create_branch repo name from_name hh = some (code, repo1, events) →
      repo1.readonly = repo.readonly) := by
  refine ⟨by simp [handle_commit, hro], by simp [handle_add, hro],
    by simp [handle_delete, hro], ?_, ?_⟩
  · intro kind hash code repo1 events heq hcode
    unfold handle_cr_move at heq
    cases hfind : (repo.branches.getD repo.idx default).commits.findIdx?
        (fun c => c.hash == hash) with
    | none =>
      simp only [hfind, Option.some.injEq, Prod.mk.injEq] at heq
      obtain ⟨hc, -, -⟩ := heq
      exact absurd hcode (by omega)
    | some target_idx =>
      simp only [hfind] at heq
      have hlt : repo.idx < repo.branches.length := by
        by_contra hge
        push_neg at hge
        rw [List.getD_eq_default _ _ hge] at hfind
        have hcm : (default : branch_t).commits = [] := rfl
        rw [hcm] at hfind
        exact absurd hfind (by simp [List.findIdx?])
      cases kind with
      | rollback =>
        by_cases hguard : (repo.branches.getD repo.idx default).head ≤ target_idx
        · rw [if_pos hguard] at heq
          simp only [Option.some.injEq, Prod.mk.injEq] at heq
          obtain ⟨hc, -, -⟩ := heq
          exact absurd hcode (by omega)
        · rw [if_neg hguard] at heq
          simp only [cr_move_finish, Option.some.injEq, Prod.mk.injEq] at heq
          obtain ⟨-, hrepo, -⟩ := heq
          subst hrepo
          simp only [getD_set_self _ _ _ hlt]
          constructor
          · intro hfalse
            simpa using hfalse
          · intro htarget
            simpa using htarget
      | checkout =>
        by_cases hguard : target_idx ≤ (repo.branches.getD repo.idx default).head
        · rw [if_pos hguard] at heq
          simp only [Option.some.injEq, Prod.mk.injEq] at heq
          obtain ⟨hc, -, -⟩ := heq
          exact absurd hcode (by omega)
        · rw [if_neg hguard] at heq
          simp only [cr_move_finish, Option.some.injEq, Prod.mk.injEq] at heq
          obtain ⟨-, hrepo, -⟩ := heq
          subst hrepo
          simp only [getD_set_self _ _ _ hlt]
          constructor
          · intro hfalse
            simpa using hfalse
          · intro htarget
            simpa using htarget
  · intro name from_name hh code repo1 events heq
    unfold handle_create_branch at heq
    cases hcr : create_branch_repository repo name
        (from_name.getD (repo.branches.getD repo.idx default).name) hh with
    | none =>
      simp only [hcr] at heq
      exact absurd heq (by simp)
    | some r =>
      obtain ⟨r1, r2, r3⟩ := r
      simp only [hcr, Option.some.injEq, Prod.mk.injEq] at heq
      obtain ⟨-, hrepo, -⟩ := heq
      subst hrepo
      exact create_branch_repository_readonly repo name _ hh r1 r2 r3 hcr

theorem C8_readonly_guard_witness :
    repoRO.readonly = true ∧
    handle_commit (fun r => (0, r, [])) repoRO = (-1, repoRO, []) ∧
    handle_add (fun r => (0, r, [])) repoRO = (-1, repoRO, []) ∧
    handle_delete (fun r => (0, r, [])) repoRO = (-1, repoRO, []) :=
  ⟨rfl,
    (C8_readonly_guard (fun r => (0, r, [])) (fun r => (0, r, []))
      (fun r => (0, r, [])) repoRO rfl).1,
    (C8_readonly_guard (fun r => (0, r, [])) (fun r => (0, r, []))
      (fun r => (0, r, [])) repoRO rfl).2.1,
    (C8_readonly_guard (fun r => (0, r, [])) (fun r => (0, r, []))
      (fun r => (0, r, [])) repoRO rfl).2.2.1⟩

theorem mem_conflict_pairs (c1 c2 : commit_t) (d1 d2 : diff_t) :
    (d1, d2) ∈ conflict_pairs c1 c2 ↔
      d1 ∈ c1.changes ∧ d2 ∈ c2.changes ∧ d1.new_path = d2.new_path := by
  unfold conflict_pairs
  constructor
  · intro hmem
    rw [List.mem_flatten] at hmem
    obtain ⟨l, hl, hmem⟩ := hmem
    rw [List.mem_map] at hl
    obtain ⟨x, hx, rfl⟩ := hl
    rw [List.mem_map] at hmem
    obtain ⟨y, hy, heq⟩ := hmem
    rw [List.mem_filter] at hy
    injection heq with h1 h2
    subst h1
    subst h2
    exact ⟨hx, hy.1, beq_iff_eq.mp hy.2⟩
  · rintro ⟨h1, h2, h3⟩
    rw [List.mem_flatten]
    refine ⟨(c2.changes.filter (fun d => d1.new_path == d.new_path)).map
      (fun d => (d1, d)), ?_, ?_⟩
    · rw [List.mem_map]
      exact ⟨d1, h1, rfl⟩
    · rw [List.mem_map]
      exact ⟨d2, List.mem_filter.mpr ⟨h2, beq_iff_eq.mpr h3⟩, rfl⟩

theorem mem_rebase_scan_range (a : Nat) (s d : branch_t) (i : Nat) :
    i ∈ rebase_scan_range a s d ↔
      a < i ∧ i < min s.head (min s.commits.length d.commits.length) := by
  unfold rebase_scan_range
  rw [List.mem_range'_1]
  omega

/-- C3: when the destination and source branches exist, share an ancestor
found at index `a` of the destination, and some index `i` with
`a < i < min(source.head, |source|, |destination|)` carries diffs with
equal `new_path` on both sides, `rebase_branch` returns the conflict
result, leaves the repository (both branches, both heads, the index)
untouched, performs no filesystem event, and the pairs printed to stderr
are exactly the conflicting diff pairs of the scanned range. -/
theorem C3_rebase_conflict (stepFirst : commit_t → commit_t → Bool) (repo : repository_t)
    (dstName srcName : String) (destination source : branch_t) (ancestor : commit_t) (a : Nat)
    (hd : get_branch_repository repo dstName = some destination)
    (hs : get_branch_repository repo srcName = some source)
    (hanc : find_common_ancestor stepFirst destination source = some ancestor)
    (hidx : find_index_commit destination ancestor = some a)
    (hconf : ∃ i, a < i ∧
      i < min source.head (min source.commits.length destination.commits.length) ∧
      ∃ d1 ∈ (source.commits.getD i default).changes,
        ∃ d2 ∈ (destination.commits.getD i default).changes,
          d1.new_path = d2.new_path) :
    ∃ printed : List (diff_t × diff_t),
      rebase_branch stepFirst repo dstName srcName =
        some (.conflict, repo, printed, []) ∧
      ∀ d1 d2, (d1, d2) ∈ printed ↔ ∃ i, a < i ∧
        i < min source.head (min source.commits.length destination.commits.length) ∧
        d1 ∈ (source.commits.getD i default).changes ∧
        d2 ∈ (destination.commits.getD i default).changes ∧
        d1.new_path = d2.new_path := by
  set printed := ((rebase_scan_range a source destination).map
    (fun i => conflict_pairs (source.commits.getD i default)
      (destination.commits.getD i default))).flatten with hprinted
  have hchar : ∀ d1 d2, (d1, d2) ∈ printed ↔ ∃ i, a < i ∧
      i < min source.head (min source.commits.length destination.commits.length) ∧
      d1 ∈ (source.commits.getD i default).changes ∧
      d2 ∈ (destination.commits.getD i default).changes ∧
      d1.new_path = d2.new_path := by
    intro d1 d2
    rw [hprinted]
    simp only [List.mem_flatten, List.mem_map]
    constructor
    · rintro ⟨l, ⟨i, hi, rfl⟩, hmem⟩
      rw [mem_conflict_pairs] at hmem
      rw [mem_rebase_scan_range] at hi
      exact ⟨i, hi.1, hi.2, hmem.1, hmem.2.1, hmem.2.2⟩
    · rintro ⟨i, h1, h2, h3, h4, h5⟩
      exact ⟨conflict_pairs (source.commits.getD i default)
          (destination.commits.getD i default),
        ⟨i, (mem_rebase_scan_range a source destination i).mpr ⟨h1, h2⟩, rfl⟩,
        (mem_conflict_pairs _ _ d1 d2).mpr ⟨h3, h4, h5⟩⟩
  have hne : printed.isEmpty = false := by
    obtain ⟨i, h1, h2, d1, h3, d2, h4, h5⟩ := hconf
    have hmem : (d1, d2) ∈ printed := (hchar d1 d2).mpr ⟨i, h1, h2, h3, h4, h5⟩
    cases hp : printed with
    | nil =>
      rw [hp] at hmem
      cases hmem
    | cons x tl => rfl
  have hrb : is_rebase_possible stepFirst repo dstName srcName = some (false, printed) := by
    unfold is_rebase_possible
    simp only [hd, hs, hanc, hidx, ← hprinted, hne]
  refine ⟨printed, ?_, hchar⟩
  unfold rebase_branch
  simp only [hrb, Bool.not_false, if_true]

theorem C3_rebase_conflict_witness :
    get_branch_repository repoC3 "main" = some dstB ∧
    get_branch_repository repoC3 "dev" = some srcB ∧
    find_common_ancestor spec_step dstB srcB = some commitBase ∧
    find_index_commit dstB commitBase = some 0 ∧
    ∃ printed : List (diff_t × diff_t),
      rebase_branch spec_step repoC3 "main" "dev" =
        some (.conflict, repoC3, printed, []) ∧
      ∀ d1 d2, (d1, d2) ∈ printed ↔ ∃ i, 0 < i ∧
        i < min srcB.head (min srcB.commits.length dstB.commits.length) ∧
        d1 ∈ (srcB.commits.getD i default).changes ∧
        d2 ∈ (dstB.commits.getD i default).changes ∧
        d1.new_path = d2.new_path :=
  ⟨by decide, by decide,
    by simp [find_common_ancestor, fcaWalk, dstB, srcB, commitBase, commitS1,
      commitS2, commitD1, spec_step],
    by decide,
    C3_rebase_conflict spec_step repoC3 "main" "dev" dstB srcB commitBase 0
      (by decide) (by decide)
      (by simp [find_common_ancestor, fcaWalk, dstB, srcB, commitBase, commitS1,
        commitS2, commitD1, spec_step])
      (by decide)
      ⟨1, by decide, by decide, diffS, by decide, diffD, by decide, rfl⟩⟩
